import Mathlib

/-!
Shallow embedding of the `dino` repository (Vision Transformer building blocks
and the DINO head).

Conventions:
  * A rank-3 tensor of shape `(1, tokens, dim)` (the position-embedding table)
    is modelled as a `List (List ℚ)`: the list of its `tokens` rows along axis 1,
    each row the `dim` entries along axis 2 (the leading batch axis of size 1 is
    elided).  The rows of an image-like `(1, h, w, dim)` tensor are modelled as
    a `List (List (List ℚ))` (rows of cells of channels).
  * Fallible tensor operations (reshape with mismatched element counts,
    `F.interpolate` with non-positive sizes, Python `TypeError`s) are modelled
    with `Except String`.
  * Random sampling (`torch.rand`, `Tensor.uniform_`) is modelled by passing the
    drawn values explicitly as arguments.
  * Real-valued analysis (`math.erf`, `Tensor.erfinv_`, `exp`/`softmax`) is
    modelled over `ℝ`.
-/

namespace DinoModules

/-- Total number of scalar elements in a list-of-rows tensor (`Tensor.numel`
restricted to the last two axes). -/
def tensorNumel (rows : List (List ℚ)) : ℕ :=
  (rows.map List.length).sum

/-- The cubic convolution kernel used by `torch.nn.functional.interpolate` with
`mode="bicubic"` (Keys kernel with `A = -0.75`).  Models the library primitive
called at `dino/modules.py` line 361. -/
def cubicConv (t : ℚ) : ℚ :=
  let a : ℚ := -3/4
  let x := |t|
  if x ≤ 1 then (a + 2) * x ^ 3 - (a + 3) * x ^ 2 + 1
  else if x < 2 then a * x ^ 3 - 5 * a * x ^ 2 + 8 * a * x - 4 * a
  else 0

/-- Source coordinate of output index `outIdx` for resampling from `inSize` to
`outSize` with `align_corners=False` (the `F.interpolate` default). -/
def srcIndex (outIdx inSize outSize : ℕ) : ℚ :=
  ((outIdx : ℚ) + 1/2) * ((inSize : ℚ) / (outSize : ℚ)) - 1/2

/-- Clamp an integer sample index into `[0, n-1]` (border replication). -/
def clampIdx (i : ℤ) (n : ℕ) : ℕ :=
  (max 0 (min i ((n : ℤ) - 1))).toNat

/-- One output cell (a `dim`-channel vector) of bicubic resampling of an
`s × s` grid to an `h × w` grid. -/
def bicubicCell (grid : List (List (List ℚ))) (s h w i j dim : ℕ) : List ℚ :=
  let sy := srcIndex i s h
  let sx := srcIndex j s w
  let iy : ℤ := ⌊sy⌋
  let ix : ℤ := ⌊sx⌋
  let fy : ℚ := sy - iy
  let fx : ℚ := sx - ix
  let offs : List ℤ := [-1, 0, 1, 2]
  (List.range dim).map (fun c =>
    (offs.map (fun (ky : ℤ) =>
      (offs.map (fun (kx : ℤ) =>
        cubicConv (fy - (ky : ℚ)) * cubicConv (fx - (kx : ℚ)) *
          (((grid.getD (clampIdx (iy + ky) s) []).getD (clampIdx (ix + kx) s) []).getD c 0))).sum)).sum)

/-- Bicubic resampling of an `s × s` grid of `dim`-channel cells to an `h × w`
grid: models `torch.nn.functional.interpolate(input, size=(h, w),
mode="bicubic")` for a `(1, dim, s, s)` input (the `_to_bchw`/`_to_bhwc`
permutations around the call cancel in this channel-last representation). -/
def bicubicResize (grid : List (List (List ℚ))) (s dim h w : ℕ) : List (List (List ℚ)) :=
  (List.range h).map (fun i => (List.range w).map (fun j => bicubicCell grid s h w i j dim))

/-- Row-major reshape of a `(tokens, dim)` list of rows into an `s × s` grid of
rows, as performed by `patch_pos_embed.reshape(1, s, s, dim)`. -/
def reshapeGrid (rows : List (List ℚ)) (s : ℕ) : List (List (List ℚ)) :=
  (List.range s).map (fun i => (List.range s).map (fun j => rows.getD (i * s + j) []))

/-- Embedding of `interpolate_pos_encoding` (`dino/modules.py` lines 336-378;
`src/preprocessing.py` carries the same algorithm with the spatial parameters
renamed).  `pos_embed` is the `(1, token_size+1, dim)` table as a list of rows.
The unchecked `reshape` is modelled as failing exactly when the element counts
disagree (PyTorch raises a `RuntimeError` there), `int(math.sqrt ...)` as
`Nat.sqrt`, and `F.interpolate` as failing when an input or output spatial size
is zero (PyTorch requires positive sizes). -/
def interpolate_pos_encoding (pos_embed : List (List ℚ))
    (n_patch dim patch_size height width : ℕ) : Except String (List (List ℚ)) :=
  let token_size := pos_embed.length - 1
  if n_patch = token_size ∧ height = width then
    Except.ok pos_embed
  else
    let class_pos_embed := pos_embed.take 1
    let patch_pos_embed := pos_embed.drop 1
    let pos_embed_hight := height / patch_size
    let pos_embed_width := width / patch_size
    let pos_embed_side_length := Nat.sqrt token_size
    if tensorNumel patch_pos_embed = pos_embed_side_length * pos_embed_side_length * dim then
      if pos_embed_side_length = 0 ∨ pos_embed_hight = 0 ∨ pos_embed_width = 0 then
        Except.error "interpolate: input and output sizes should be greater than zero"
      else
        let grid := reshapeGrid patch_pos_embed pos_embed_side_length
        let resized := bicubicResize grid pos_embed_side_length dim pos_embed_hight pos_embed_width
        Except.ok (class_pos_embed ++ resized.flatten)
    else
      Except.error "reshape: shape is invalid for input size"

/-- Patch-token count produced by `PatchEmbed.forward` for an input of spatial
size `height × width`: the strided convolution (`kernel_size = stride =
patch_size`) yields a `(height/p) × (width/p)` grid which `flatten(2)` turns
into `(height/p)*(width/p)` tokens (`dino/modules.py` lines 112-119). -/
def patchEmbedTokens (height width patch_size : ℕ) : ℕ :=
  (height / patch_size) * (width / patch_size)

/-- The positional table that `prepare_tokens` (`dino/modules.py` lines
280-319) adds to the token sequence: after `patch_embed` and the `[CLS]`
concatenation, `x.size(1) - 1` equals the patch-token count and `x.size(-1)`
the embedding dimension, and `interpolate_pos_encoding` is called with the
`patch_size` argument it was handed. -/
def prepare_tokens_pos_table (pos_embed : List (List ℚ))
    (patch_embed_patch_size dim patch_size height width : ℕ) :
    Except String (List (List ℚ)) :=
  interpolate_pos_encoding pos_embed
    (patchEmbedTokens height width patch_embed_patch_size) dim patch_size height width

/-- The positional table used by `VisionTransformer.forward` (`dino/modules.py`
lines 489-503) for a batch of `batch` images of spatial size
`height × width`: the call site passes `x.size(0)` — the batch size — in the
`patch_size` parameter slot of `prepare_tokens`.  `model_patch_size` is the
model's configured `self.patch_embed.patch_size`, which determines the patch
count but is never forwarded as the interpolation patch size. -/
def visionTransformer_forward_pos_table (pos_embed : List (List ℚ))
    (model_patch_size dim batch height width : ℕ) :
    Except String (List (List ℚ)) :=
  prepare_tokens_pos_table pos_embed model_patch_size dim batch height width

/-- Embedding of `drop_path` (`dino/modules.py` lines 122-136).  `x` is the
batch of samples, each sample flattened to a list of scalars; `rand` holds the
values drawn by `torch.rand` for the `(batch, 1, ..., 1)` mask, one per sample.
`random_tensor.floor_()` binarizes and the output is
`x.div(keep_prob) * random_tensor` broadcast over each sample. -/
def drop_path (x : List (List ℚ)) (drop_prob : ℚ) (training : Bool)
    (rand : List ℚ) : List (List ℚ) :=
  if drop_prob ≤ 0 ∨ training = false then x
  else
    let keep_prob := 1 - drop_prob
    (x.zip rand).map (fun p =>
      let mask : ℚ := ((⌊keep_prob + p.2⌋ : ℤ) : ℚ)
      p.1.map (fun v => v / keep_prob * mask))

/-- Abstract syntax of the `torch.nn` module values built by `dino_head`. -/
inductive PyModule where
  | linear (in_features out_features : ℕ) (bias : Bool)
  | gelu
  | moduleList (ms : List PyModule)
  | sequential (ms : List PyModule)
  | weightNorm (m : PyModule)
  | normalize (p : ℚ) (dim : ℤ)
  deriving Repr

/-- Python iteration over a module: only the container modules
(`nn.ModuleList`, `nn.Sequential`) define an iterator; iterating any other
`nn.Module` raises `TypeError`. -/
def PyModule.iterate : PyModule → Option (List PyModule)
  | .moduleList ms => some ms
  | .sequential ms => some ms
  | _ => none

/-- Semantics of the Python call `nn.ModuleList(*args)`:
`nn.ModuleList.__init__(self, modules=None)` accepts at most one positional
argument, which must be an iterable of modules.  Zero arguments build an empty
list; one argument is iterated (raising `TypeError` if it is not iterable);
two or more positional arguments raise `TypeError` immediately. -/
def moduleListCall (args : List PyModule) : Except String PyModule :=
  match args with
  | [] => Except.ok (PyModule.moduleList [])
  | [m] =>
    match m.iterate with
    | some ms => Except.ok (PyModule.moduleList ms)
    | none => Except.error "TypeError: object is not iterable"
  | _ => Except.error "TypeError: ModuleList takes from 1 to 2 positional arguments"

/-- The `layers` list assembled by `dino_head` before the container is built
(`dino/modules.py` lines 390-399). -/
def dinoHeadLayers (input_dim n_layers hidden_dim bottleneck_dim : ℕ) : List PyModule :=
  if n_layers = 1 then [PyModule.linear input_dim bottleneck_dim true]
  else
    [PyModule.linear input_dim hidden_dim true, PyModule.gelu]
      ++ (List.replicate (n_layers - 2)
            [PyModule.linear hidden_dim hidden_dim true, PyModule.gelu]).flatten
      ++ [PyModule.linear hidden_dim bottleneck_dim true]

/-- Embedding of `dino_head` (`dino/modules.py` lines 381-412; the copy in
`src/modules.py` lines 89-120 is identical).  The source builds the container
with `nn.ModuleList(*layers)` — the list is unpacked into positional
arguments — then wraps everything in `nn.Sequential(module, Normalize(dim=-1,
p=2), last_layer)` with a weight-normalized bias-free final linear layer. -/
def dino_head (input_dim output_dim n_layers hidden_dim bottleneck_dim : ℕ) :
    Except String PyModule := do
  let layers := dinoHeadLayers input_dim n_layers hidden_dim bottleneck_dim
  let module ← moduleListCall layers
  let last_layer := PyModule.weightNorm (PyModule.linear bottleneck_dim output_dim false)
  Except.ok (PyModule.sequential [module, PyModule.normalize 2 (-1), last_layer])

/-- `head_dim` as computed in `Attention.__init__` / the `torch.div(C,
num_heads, rounding_mode="trunc")` in `Attention.forward`: truncating natural
division. -/
def headDim (dim num_heads : ℕ) : ℕ := dim / num_heads

open Classical in
/-- The attention scale set in `Attention.__init__` (`dino/modules.py` line
199): `self.scale = qk_scale or head_dim ** -0.5`.  Python's `or` falls back to
the default both for `None` and for a falsy `0.0` override. -/
noncomputable def attentionScale (qk_scale : Option ℝ) (head_dim : ℕ) : ℝ :=
  match qk_scale with
  | none => (head_dim : ℝ) ^ (-(1 : ℝ) / 2)
  | some s => if s = 0 then (head_dim : ℝ) ^ (-(1 : ℝ) / 2) else s

/-- Output of the `self.qkv` linear layer (`nn.Linear(dim, dim * 3)`) at batch
`b`, token `n`, output channel `j`.  `W` is the `(3*dim, dim)` weight matrix
and `bias` the optional bias (zero when `qkv_bias=False`). -/
noncomputable def qkvOut (W : ℕ → ℕ → ℝ) (bias : ℕ → ℝ) (x : ℕ → ℕ → ℕ → ℝ)
    (C b n j : ℕ) : ℝ :=
  (∑ c ∈ Finset.range C, W j c * x b n c) + bias j

/-- The query slice after `reshape(B, N, 3, num_heads, C // num_heads)` and
`permute(2, 0, 3, 1, 4)`: `query[b][h][n][d] = qkv(x)[b][n][0*(H*hd) + h*hd +
d]` with `hd = C / H`. -/
noncomputable def queryPart (W : ℕ → ℕ → ℝ) (bias : ℕ → ℝ) (x : ℕ → ℕ → ℕ → ℝ)
    (C H b h n d : ℕ) : ℝ :=
  qkvOut W bias x C b n (h * (C / H) + d)

/-- The key slice of the reshaped/permuted `qkv` tensor:
`key[b][h][n][d] = qkv(x)[b][n][1*(H*hd) + h*hd + d]`. -/
noncomputable def keyPart (W : ℕ → ℕ → ℝ) (bias : ℕ → ℝ) (x : ℕ → ℕ → ℕ → ℝ)
    (C H b h n d : ℕ) : ℝ :=
  qkvOut W bias x C b n (H * (C / H) + h * (C / H) + d)

/-- The pre-softmax attention logits of `Attention.forward`
(`dino/modules.py` line 225): `attn = (query @ key.transpose(-2, -1)) *
self.scale`. -/
noncomputable def attnScores (W : ℕ → ℕ → ℝ) (bias : ℕ → ℝ) (x : ℕ → ℕ → ℕ → ℝ)
    (C H : ℕ) (scale : ℝ) (b h i j : ℕ) : ℝ :=
  (∑ d ∈ Finset.range (C / H),
      queryPart W bias x C H b h i d * keyPart W bias x C H b h j d) * scale

/-- The attention weights of `Attention.forward` after `attn.softmax(dim=-1)`
(`dino/modules.py` line 226): softmax over the key axis `j ∈ [0, N)` per
batch, head and query position. -/
noncomputable def attnWeights (W : ℕ → ℕ → ℝ) (bias : ℕ → ℝ) (x : ℕ → ℕ → ℕ → ℝ)
    (C H N : ℕ) (scale : ℝ) (b h i j : ℕ) : ℝ :=
  Real.exp (attnScores W bias x C H scale b h i j) /
    ∑ k ∈ Finset.range N, Real.exp (attnScores W bias x C H scale b h i k)

/-- The constant `SQRT_2 = math.sqrt(2.0)` (`dino/modules.py` line 15). -/
noncomputable def SQRT_2 : ℝ := Real.sqrt 2

/-- Model of the library function `math.erf`: the Gauss error function
`erf x = (2/√π) ∫ t in 0..x, exp (-t²)`. -/
noncomputable def erf (x : ℝ) : ℝ :=
  2 / Real.sqrt Real.pi * ∫ t in (0 : ℝ)..x, Real.exp (-t ^ 2)

/-- Embedding of `_norm_cdf` (`dino/modules.py` lines 18-21). -/
noncomputable def _norm_cdf (x : ℝ) : ℝ := (1 + erf (x / SQRT_2)) / 2

/-- Model of the library primitive `Tensor.erfinv_`: the inverse of `erf`. -/
noncomputable def erfinv : ℝ → ℝ := Function.invFun erf

/-- The set of values `Tensor.uniform_(2*lower - 1, 2*upper - 1)` can place in
one tensor element inside `_truncated_normal` (a half-open range). -/
def validDraw (u mean std a b : ℝ) : Prop :=
  2 * _norm_cdf ((a - mean) / std) - 1 ≤ u ∧ u < 2 * _norm_cdf ((b - mean) / std) - 1

/-- The value an element holding the uniform draw `u` has after the body of
`_truncated_normal` (`dino/modules.py` lines 46-67): `erfinv`, multiply by
`std * sqrt 2`, add `mean`, clamp into `[a, b]`. -/
noncomputable def truncatedNormalValue (u mean std a b : ℝ) : ℝ :=
  min (max (erfinv u * (std * Real.sqrt 2) + mean) a) b

/-- Embedding of `_truncated_normal` (`dino/modules.py` lines 24-67) acting on
one tensor element holding the uniform draw `u`.  The first component records
whether the `warnings.warn` branch at lines 40-44 fires; `warnings.warn` does
not raise, so the function always proceeds to fill and return the tensor,
modelled by the second component always being the filled value. -/
noncomputable def _truncated_normal (u mean std a b : ℝ) : Prop × ℝ :=
  (mean < a - 2 * std ∨ mean > b + 2 * std, truncatedNormalValue u mean std a b)

/-- Per-element semantics of the weight initialization performed by
`_init_dino_head` (`dino/modules.py` lines 70-74) and
`VisionTransformer._init_weights` (lines 480-487): both call
`_truncated_normal(weight, std=0.02)`, leaving `mean=0`, `a=-2`, `b=2` at
their defaults. -/
noncomputable def initLinearWeightValue (u : ℝ) : ℝ :=
  (_truncated_normal u 0 0.02 (-2) 2).2

/-- Per-element semantics of the bias initialization in `_init_dino_head` and
`VisionTransformer._init_weights`: `nn.init.constant_(bias, 0)`. -/
def initLinearBiasValue : ℝ := 0

end DinoModules

namespace SrcModules

/-- Embedding of `vision_transformer` (`src/modules.py` lines 123-160): the
function signature takes the full configuration but its body is `pass`, so it
returns `None` for every argument list. -/
def vision_transformer (img_size : List ℕ)
    (patch_size input_channels num_classes embed_dim depth num_heads : ℕ)
    (mlp_ratio : ℚ) (qkv_bias : Bool) : Option DinoModules.PyModule :=
  none

/-- Embedding of `vit_tiny` (`src/modules.py` lines 142-152). -/
def vit_tiny (patch_size : ℕ) : Option DinoModules.PyModule :=
  vision_transformer [224] patch_size 3 0 192 12 3 4 true

/-- Embedding of `vit_small` (`src/modules.py` lines 155-165). -/
def vit_small (patch_size : ℕ) : Option DinoModules.PyModule :=
  vision_transformer [224] patch_size 3 0 384 12 6 4 true

/-- Embedding of `vit_base` (`src/modules.py` lines 168-178). -/
def vit_base (patch_size : ℕ) : Option DinoModules.PyModule :=
  vision_transformer [224] patch_size 3 0 768 12 12 4 true

end SrcModules

namespace DinoModules

lemma tensorNumel_of_rows (rows : List (List ℚ)) (dim : ℕ)
    (h : ∀ r ∈ rows, r.length = dim) : tensorNumel rows = rows.length * dim := by
  induction rows with
  | nil => simp [tensorNumel]
  | cons r rs ih =>
    have hr : r.length = dim := h r (List.mem_cons_self r rs)
    have hrs := ih (fun q hq => h q (List.mem_cons_of_mem r hq))
    simp only [tensorNumel, List.map_cons, List.sum_cons, List.length_cons] at *
    rw [hr, hrs]
    ring

lemma bicubicResize_flatten_length (grid : List (List (List ℚ))) (s dim h w : ℕ) :
    (bicubicResize grid s dim h w).flatten.length = h * w := by
  unfold bicubicResize
  rw [List.length_flatten, List.map_map]
  have hrep : (List.range h).map
      (List.length ∘ fun i => (List.range w).map (fun j => bicubicCell grid s h w i j dim)) =
      List.replicate h w := by
    refine List.eq_replicate_iff.mpr ⟨by simp, ?_⟩
    intro b hb
    rcases List.mem_map.mp hb with ⟨i, _, hi⟩
    simpa using hi.symm
  rw [hrep, List.sum_replicate, smul_eq_mul]

/-- On the general path (fast-path test false, patch count a positive perfect
square `s * s`, positive target grid) `interpolate_pos_encoding` reaches the
final concatenation. -/
lemma interpolate_general_eq (pos_embed : List (List ℚ))
    (n_patch dim ps h w s : ℕ)
    (hwf : ∀ r ∈ pos_embed, r.length = dim)
    (hsq : pos_embed.length - 1 = s * s) (hs : 1 ≤ s)
    (hfast : ¬(n_patch = pos_embed.length - 1 ∧ h = w))
    (hh : 1 ≤ h / ps) (hw : 1 ≤ w / ps) :
    interpolate_pos_encoding pos_embed n_patch dim ps h w =
      Except.ok (pos_embed.take 1 ++
        (bicubicResize (reshapeGrid (pos_embed.drop 1) s) s dim (h / ps) (w / ps)).flatten) := by
  have hsqrt : Nat.sqrt (pos_embed.length - 1) = s := by rw [hsq, Nat.sqrt_eq]
  have hnum : tensorNumel (pos_embed.drop 1) =
      Nat.sqrt (pos_embed.length - 1) * Nat.sqrt (pos_embed.length - 1) * dim := by
    rw [tensorNumel_of_rows _ dim (fun r hr => hwf r (List.mem_of_mem_drop hr)),
      List.length_drop, hsqrt, ← hsq]
  have hpos : ¬(Nat.sqrt (pos_embed.length - 1) = 0 ∨ h / ps = 0 ∨ w / ps = 0) := by
    rw [hsqrt]
    push_neg
    exact ⟨by omega, by omega, by omega⟩
  unfold interpolate_pos_encoding
  rw [if_neg hfast, if_pos hnum, if_neg hpos, hsqrt]

lemma interpolate_general_shape (pos_embed : List (List ℚ))
    (n_patch dim ps h w s : ℕ)
    (hwf : ∀ r ∈ pos_embed, r.length = dim)
    (hsq : pos_embed.length - 1 = s * s) (hs : 1 ≤ s)
    (hfast : ¬(n_patch = pos_embed.length - 1 ∧ h = w))
    (hh : 1 ≤ h / ps) (hw : 1 ≤ w / ps) :
    ∃ t, interpolate_pos_encoding pos_embed n_patch dim ps h w = Except.ok t ∧
      t.length = 1 + (h / ps) * (w / ps) ∧ t[0]? = pos_embed[0]? := by
  have hlen : 1 ≤ pos_embed.length := by
    rcases pos_embed with _ | ⟨r, rs⟩
    · simp at hsq; omega
    · simp
  refine ⟨_, interpolate_general_eq pos_embed n_patch dim ps h w s hwf hsq hs hfast hh hw, ?_, ?_⟩
  · rw [List.length_append, bicubicResize_flatten_length, List.length_take]
    omega
  · have htake : (pos_embed.take 1).length = 1 := by
      rw [List.length_take]; omega
    rw [List.getElem?_append_left (by omega), List.getElem?_take_of_lt (by omega)]

/-- C1: for every position-embedding table of `s*s + 1` rows of width `dim`
(`N0 = s*s` a positive perfect square) and every request that does not take
the fast path and yields a positive target grid `(h', w') = (height /
patch_size, width / patch_size)`, `interpolate_pos_encoding` succeeds and
returns a table with exactly `1 + h' * w'` token rows whose row 0 is exactly
row 0 of the input table (the class-token row is never resampled). -/
theorem interpolate_general_path_token_count_and_cls_row
    (pos_embed : List (List ℚ)) (n_patch dim patch_size height width s : ℕ)
    (hwf : ∀ r ∈ pos_embed, r.length = dim)
    (hsq : pos_embed.length - 1 = s * s) (hs : 1 ≤ s)
    (hfast : ¬(n_patch = pos_embed.length - 1 ∧ height = width))
    (hh : 1 ≤ height / patch_size) (hw : 1 ≤ width / patch_size) :
    ∃ t, interpolate_pos_encoding pos_embed n_patch dim patch_size height width =
        Except.ok t ∧
      t.length = 1 + (height / patch_size) * (width / patch_size) ∧
      t[0]? = pos_embed[0]? :=
  interpolate_general_shape pos_embed n_patch dim patch_size height width s
    hwf hsq hs hfast hh hw

theorem interpolate_general_path_token_count_and_cls_row_witness :
    (∀ r ∈ [[(5 : ℚ)], [7]], r.length = 1) ∧
      ([[(5 : ℚ)], [7]] : List (List ℚ)).length - 1 = 1 * 1 ∧
      ¬(3 = ([[(5 : ℚ)], [7]] : List (List ℚ)).length - 1 ∧ 2 = 2) ∧
      (∃ t, interpolate_pos_encoding [[(5 : ℚ)], [7]] 3 1 1 2 2 = Except.ok t ∧
        t.length = 1 + (2 / 1) * (2 / 1) ∧ t[0]? = ([[(5 : ℚ)], [7]] : List (List ℚ))[0]?) :=
  ⟨by decide, by decide, by decide,
    interpolate_general_path_token_count_and_cls_row [[(5 : ℚ)], [7]] 3 1 1 2 2 1
      (by decide) (by decide) (by decide) (by decide) (by decide) (by decide)⟩

/-- C2: whenever the requested patch count `n_patch` equals the table's patch
count `pos_embed.size(1) - 1` and the image is square (`height = width`),
`interpolate_pos_encoding` takes the fast path and returns the original table
unchanged. -/
theorem interpolate_fast_path_identity
    (pos_embed : List (List ℚ)) (n_patch dim patch_size height width : ℕ)
    (hn : n_patch = pos_embed.length - 1) (hhw : height = width) :
    interpolate_pos_encoding pos_embed n_patch dim patch_size height width =
      Except.ok pos_embed := by
  unfold interpolate_pos_encoding
  rw [if_pos ⟨hn, hhw⟩]

set_option maxRecDepth 4000 in
theorem interpolate_fast_path_identity_witness :
    (196 = ([[(1 : ℚ)]] ++ List.replicate 196 [(2 : ℚ)]).length - 1) ∧ (224 : ℕ) = 224 ∧
      interpolate_pos_encoding ([[(1 : ℚ)]] ++ List.replicate 196 [(2 : ℚ)]) 196 1 16 224 224 =
        Except.ok ([[(1 : ℚ)]] ++ List.replicate 196 [(2 : ℚ)]) :=
  ⟨by decide, rfl,
    interpolate_fast_path_identity ([[(1 : ℚ)]] ++ List.replicate 196 [(2 : ℚ)])
      196 1 16 224 224 (by decide) rfl⟩

/-- C5: for every position-embedding table whose patch count
`N0 = pos_embed.size(1) - 1` is not a perfect square (and whose rows have a
positive width `dim`), `interpolate_pos_encoding` on the general path fails
with an error — the element-count check of `reshape(1, s, s, dim)` with
`s = int(sqrt(N0))` can never pass — rather than returning any table built
from a truncated patch grid. -/
theorem interpolate_nonsquare_grid_errors
    (pos_embed : List (List ℚ)) (n_patch dim patch_size height width : ℕ)
    (hwf : ∀ r ∈ pos_embed, r.length = dim) (hdim : 1 ≤ dim)
    (hnsq : ¬∃ m, m * m = pos_embed.length - 1)
    (hfast : ¬(n_patch = pos_embed.length - 1 ∧ height = width)) :
    ∃ e, interpolate_pos_encoding pos_embed n_patch dim patch_size height width =
      Except.error e := by
  rw [Nat.exists_mul_self] at hnsq
  have hnum : tensorNumel (pos_embed.drop 1) ≠
      Nat.sqrt (pos_embed.length - 1) * Nat.sqrt (pos_embed.length - 1) * dim := by
    rw [tensorNumel_of_rows _ dim (fun r hr => hwf r (List.mem_of_mem_drop hr)),
      List.length_drop]
    intro hcon
    exact hnsq (Nat.eq_of_mul_eq_mul_right (by omega) hcon).symm
  unfold interpolate_pos_encoding
  rw [if_neg hfast, if_neg hnum]
  exact ⟨_, rfl⟩

theorem interpolate_nonsquare_grid_errors_witness :
    (∀ r ∈ [[(1 : ℚ)], [2], [3]], r.length = 1) ∧
      (¬∃ m, m * m = ([[(1 : ℚ)], [2], [3]] : List (List ℚ)).length - 1) ∧
      ¬(7 = ([[(1 : ℚ)], [2], [3]] : List (List ℚ)).length - 1 ∧ 32 = 48) ∧
      ∃ e, interpolate_pos_encoding [[(1 : ℚ)], [2], [3]] 7 1 16 32 48 = Except.error e :=
  ⟨by decide, show ¬∃ m, m * m = 2 from @Nat.not_exists_sq 1 2 (by decide) (by decide), by decide,
    interpolate_nonsquare_grid_errors [[(1 : ℚ)], [2], [3]] 7 1 16 32 48
      (by decide) (by decide)
      (show ¬∃ m, m * m = 2 from @Nat.not_exists_sq 1 2 (by decide) (by decide)) (by decide)⟩

/-- C7: `VisionTransformer.forward` passes `x.size(0)` (the batch size) as the
`patch_size` argument of `prepare_tokens`, so the positional-interpolation
grid is `(height / batch, width / batch)` — the configured model patch size
`model_patch_size` influences only the patch count tested by the fast path.
When the fast path applies (matching patch count and square image) the table
is returned unchanged, which is the only case in which the documented
behaviour is obtained; otherwise the output token count is
`1 + (height / batch) * (width / batch)` for every configured patch size. -/
theorem forward_interpolation_grid_divides_by_batch
    (pos_embed : List (List ℚ)) (model_patch_size dim batch height width s : ℕ)
    (hwf : ∀ r ∈ pos_embed, r.length = dim)
    (hsq : pos_embed.length - 1 = s * s) (hs : 1 ≤ s) :
    (patchEmbedTokens height width model_patch_size = pos_embed.length - 1 → height = width →
      visionTransformer_forward_pos_table pos_embed model_patch_size dim batch height width =
        Except.ok pos_embed) ∧
    (¬(patchEmbedTokens height width model_patch_size = pos_embed.length - 1 ∧ height = width) →
      1 ≤ height / batch → 1 ≤ width / batch →
      ∃ t, visionTransformer_forward_pos_table pos_embed model_patch_size dim batch height width =
          Except.ok t ∧
        t.length = 1 + (height / batch) * (width / batch) ∧ t[0]? = pos_embed[0]?) := by
  constructor
  · intro hn hhw
    unfold visionTransformer_forward_pos_table prepare_tokens_pos_table interpolate_pos_encoding
    rw [if_pos ⟨hn, hhw⟩]
  · intro hfast hh hw
    exact interpolate_general_shape pos_embed
      (patchEmbedTokens height width model_patch_size) dim batch height width s
      hwf hsq hs hfast hh hw

theorem forward_interpolation_grid_divides_by_batch_witness :
    (∀ r ∈ [[(5 : ℚ)], [7]], r.length = 1) ∧
      ([[(5 : ℚ)], [7]] : List (List ℚ)).length - 1 = 1 * 1 ∧
      ¬(patchEmbedTokens 6 6 16 = ([[(5 : ℚ)], [7]] : List (List ℚ)).length - 1 ∧ 6 = 6) ∧
      ∃ t, visionTransformer_forward_pos_table [[(5 : ℚ)], [7]] 16 1 2 6 6 = Except.ok t ∧
        t.length = 1 + (6 / 2) * (6 / 2) ∧ t[0]? = ([[(5 : ℚ)], [7]] : List (List ℚ))[0]? :=
  ⟨by decide, by decide, by decide,
    (forward_interpolation_grid_divides_by_batch [[(5 : ℚ)], [7]] 16 1 2 6 6 1
      (by decide) (by decide) (by decide)).2 (by decide) (by decide) (by decide)⟩

/-- C4 (code bug): `dino_head` never constructs its module.  The container is
built with `nn.ModuleList(*layers)`, which unpacks the layer list into
positional arguments of `ModuleList.__init__(self, modules=None)`: with
`n_layers = 1` the single `nn.Linear` is passed as the `modules` iterable and
iterating it raises `TypeError`; in every other case at least three positional
arguments are passed and the call raises `TypeError` immediately.  So for
every argument list the construction fails instead of returning the
MLP/normalize/weight-norm head the claim (and the docstring "Creates the DINO
head.") describes. -/
theorem dino_head_construction_always_fails
    (input_dim output_dim n_layers hidden_dim bottleneck_dim : ℕ) :
    ∃ e, dino_head input_dim output_dim n_layers hidden_dim bottleneck_dim =
      Except.error e := by
  unfold dino_head dinoHeadLayers
  by_cases h1 : n_layers = 1
  · subst h1
    exact ⟨_, rfl⟩
  · rw [if_neg h1]
    exact ⟨_, rfl⟩

end DinoModules

namespace SrcModules

/-- C3 (code bug): the public entry points `vit_tiny`, `vit_small` and
`vit_base` of `src/modules.py` do not return a ready-to-use model object: they
delegate to `vision_transformer`, whose body is `pass`, so every one of them
returns `None` (here at the default `patch_size = 16`).  The copies in
`dino/modules.py` do construct a `VisionTransformer`, whose `forward` is the
subject of C7. -/
theorem vit_factories_return_none :
    vit_tiny 16 = none ∧ vit_small 16 = none ∧ vit_base 16 = none :=
  ⟨rfl, rfl, rfl⟩

end SrcModules

namespace DinoModules

/-- C6: `drop_path` at drop probability 0 is the identity; with `training =
false` it is the identity for every probability; and with `training = true`
and `0 < p < 1`, every sample of the output is either the all-zero sample or
that sample of `x` with each entry scaled by `1 / (1 - p)` — the drawn mask
value `floor(keep_prob + rand)` is 0 or 1 for draws in `[0, 1)`. -/
theorem drop_path_identity_and_scaling
    (x : List (List ℚ)) (p : ℚ) (training : Bool) (r : List ℚ) :
    drop_path x 0 training r = x ∧
    drop_path x p false r = x ∧
    (0 < p → p < 1 → r.length = x.length → (∀ d ∈ r, 0 ≤ d ∧ d < 1) →
      ∀ i, i < x.length →
        (drop_path x p true r).getD i [] = (x.getD i []).map (fun _ => (0 : ℚ)) ∨
        (drop_path x p true r).getD i [] =
          (x.getD i []).map (fun v => v * (1 / (1 - p)))) := by
  refine ⟨by simp [drop_path], by simp [drop_path], ?_⟩
  intro hp hp1 hlen hr i hi
  have hcond : ¬(p ≤ 0 ∨ true = false) := by
    push_neg
    exact ⟨hp, by simp⟩
  have hzip : (x.zip r).length = x.length := by
    rw [List.length_zip, hlen, min_self]
  have hx : drop_path x p true r =
      (x.zip r).map (fun q =>
        let mask : ℚ := ((⌊1 - p + q.2⌋ : ℤ) : ℚ)
        q.1.map (fun v => v / (1 - p) * mask)) := by
    unfold drop_path
    rw [if_neg hcond]
  have hmem : r.getD i 0 ∈ r := by
    rw [List.getD_eq_getElem _ _ (by omega)]
    exact List.getElem_mem _
  obtain ⟨hd0, hd1⟩ := hr _ hmem
  have hgz : (x.zip r).getD i ([], 0) = (x.getD i [], r.getD i 0) := by
    rw [List.getD_eq_getElem _ _ (by omega), List.getElem_zip,
      List.getD_eq_getElem _ _ hi, List.getD_eq_getElem _ _ (by omega)]
  have hout : (drop_path x p true r).getD i [] =
      (x.getD i []).map
        (fun v => v / (1 - p) * ((⌊1 - p + r.getD i 0⌋ : ℤ) : ℚ)) := by
    rw [hx, List.getD_eq_getElem _ _ (by rw [List.length_map]; omega),
      List.getElem_map]
    have : (x.zip r)[i] = (x.getD i [], r.getD i 0) := by
      rw [← hgz, List.getD_eq_getElem _ _ (by omega)]
    rw [this]
  rcases lt_or_le (1 - p + r.getD i 0) 1 with hlt | hge
  · left
    have hfl : ⌊1 - p + r.getD i 0⌋ = 0 := by
      rw [Int.floor_eq_zero_iff]
      constructor
      · linarith
      · exact hlt
    rw [hout, hfl]
    apply List.map_congr_left
    intro v _
    push_cast
    ring
  · right
    have hfl : ⌊1 - p + r.getD i 0⌋ = 1 := by
      rw [Int.floor_eq_iff]
      constructor
      · push_cast
        linarith
      · push_cast
        linarith
    rw [hout, hfl]
    apply List.map_congr_left
    intro v _
    push_cast
    field_simp

theorem drop_path_identity_and_scaling_witness :
    ((0 : ℚ) < 1/2) ∧ ((1 : ℚ)/2 < 1) ∧
      ([(0 : ℚ), 3/4].length = ([[(1 : ℚ)], [2]] : List (List ℚ)).length) ∧
      (∀ d ∈ [(0 : ℚ), 3/4], 0 ≤ d ∧ d < 1) ∧ (0 < 2) ∧
      ((drop_path [[(1 : ℚ)], [2]] (1/2) true [0, 3/4]).getD 0 [] =
          (([[(1 : ℚ)], [2]] : List (List ℚ)).getD 0 []).map (fun _ => (0 : ℚ)) ∨
        (drop_path [[(1 : ℚ)], [2]] (1/2) true [0, 3/4]).getD 0 [] =
          (([[(1 : ℚ)], [2]] : List (List ℚ)).getD 0 []).map
            (fun v => v * (1 / (1 - 1/2)))) :=
  ⟨by norm_num, by norm_num, by decide,
    by intro d hd; simp at hd; rcases hd with rfl | rfl <;> norm_num, by decide,
    (drop_path_identity_and_scaling [[(1 : ℚ)], [2]] (1/2) true [0, 3/4]).2.2
      (by norm_num) (by norm_num) (by decide)
      (by intro d hd; simp at hd; rcases hd with rfl | rfl <;> norm_num) 0 (by decide)⟩

/-- C8: for every input token sequence (any batch `b`, head `h`, query
position `i`) and any nonempty key axis `N`, the attention weights of
`Attention.forward` — scaled dot-product logits with scale
`head_dim ** -0.5` unless an override is given, then softmax over the key
axis — are non-negative and sum exactly to 1 over the key axis under
real-number semantics. -/
theorem attention_weights_form_simplex (W : ℕ → ℕ → ℝ) (bias : ℕ → ℝ)
    (x : ℕ → ℕ → ℕ → ℝ) (C H N : ℕ) (qk_scale : Option ℝ) (b h i : ℕ)
    (hN : 0 < N) :
    (qk_scale = none →
      attentionScale qk_scale (headDim C H) = (headDim C H : ℝ) ^ (-(1 : ℝ) / 2)) ∧
    (∀ j, 0 ≤ attnWeights W bias x C H N (attentionScale qk_scale (headDim C H)) b h i j) ∧
    ∑ j ∈ Finset.range N,
        attnWeights W bias x C H N (attentionScale qk_scale (headDim C H)) b h i j = 1 := by
  have hS : 0 < ∑ k ∈ Finset.range N,
      Real.exp (attnScores W bias x C H (attentionScale qk_scale (headDim C H)) b h i k) :=
    Finset.sum_pos (fun k _ => Real.exp_pos _) (Finset.nonempty_range_iff.mpr hN.ne')
  refine ⟨fun hq => by rw [hq]; rfl, ?_, ?_⟩
  · intro j
    exact div_nonneg (Real.exp_pos _).le hS.le
  · unfold attnWeights
    rw [← Finset.sum_div, div_self hS.ne']

theorem attention_weights_form_simplex_witness :
    0 < 1 ∧
      (((none : Option ℝ) = none →
        attentionScale none (headDim 1 1) = (headDim 1 1 : ℝ) ^ (-(1 : ℝ) / 2)) ∧
      (∀ j, 0 ≤ attnWeights (fun _ _ => 0) (fun _ => 0) (fun _ _ _ => 0) 1 1 1
        (attentionScale none (headDim 1 1)) 0 0 0 j) ∧
      ∑ j ∈ Finset.range 1,
          attnWeights (fun _ _ => 0) (fun _ => 0) (fun _ _ _ => 0) 1 1 1
            (attentionScale none (headDim 1 1)) 0 0 0 j = 1) :=
  ⟨Nat.one_pos,
    attention_weights_form_simplex (fun _ _ => 0) (fun _ => 0) (fun _ _ _ => 0)
      1 1 1 none 0 0 0 Nat.one_pos⟩

lemma continuous_expNegSq : Continuous fun t : ℝ => Real.exp (-t ^ 2) :=
  Real.continuous_exp.comp (continuous_pow 2).neg

lemma expNegSq_intervalIntegrable (p q : ℝ) :
    IntervalIntegrable (fun t : ℝ => Real.exp (-t ^ 2)) MeasureTheory.volume p q :=
  continuous_expNegSq.intervalIntegrable p q

lemma erf_strictMono : StrictMono erf := by
  intro x y hxy
  have hadd := intervalIntegral.integral_add_adjacent_intervals
    (expNegSq_intervalIntegrable 0 x) (expNegSq_intervalIntegrable x y)
  have hpos : 0 < ∫ t in x..y, Real.exp (-t ^ 2) :=
    intervalIntegral.intervalIntegral_pos_of_pos (expNegSq_intervalIntegrable x y)
      (fun t => Real.exp_pos _) hxy
  have hcoef : 0 < 2 / Real.sqrt Real.pi :=
    div_pos two_pos (Real.sqrt_pos.mpr Real.pi_pos)
  unfold erf
  rw [← hadd]
  exact mul_lt_mul_of_pos_left
    (lt_add_of_pos_right (∫ t in (0 : ℝ)..x, Real.exp (-t ^ 2)) hpos) hcoef

lemma erf_injective : Function.Injective erf :=
  erf_strictMono.injective

lemma erfinv_erf (x : ℝ) : erfinv (erf x) = x :=
  Function.leftInverse_invFun erf_injective x

lemma two_mul_norm_cdf_sub_one (x : ℝ) : 2 * _norm_cdf x - 1 = erf (x / SQRT_2) := by
  unfold _norm_cdf
  ring

/-- The property C9 asserts of the default linear-layer initializer: every
sampled weight within two standard deviations (`2 * 0.02`) of the mean. -/
def claimedInitWeightTwoSigmaBound : Prop :=
  ∀ u : ℝ, validDraw u 0 0.02 (-2) 2 → |initLinearWeightValue u - 0| ≤ 2 * 0.02

/-- C9 (counterexample): the claim is false.  `_truncated_normal(weight,
std=0.02)` keeps the truncation bounds at their absolute defaults
`a = -2, b = 2`, which with `std = 0.02` lie 100 standard deviations out, so
the sampler is effectively unclamped: the admissible uniform draw
`u = erf 10` produces the weight `0.2 * sqrt 2 ≈ 0.283`, far outside
`[-0.04, 0.04]`. -/
theorem init_weight_exceeds_two_sigma : ¬claimedInitWeightTwoSigmaBound := by
  intro hcl
  have hs2pos : (0 : ℝ) < Real.sqrt 2 := Real.sqrt_pos.mpr two_pos
  have hs2lt : Real.sqrt 2 < 2 := by
    rw [Real.sqrt_lt' two_pos]
    norm_num
  have hs2ge1 : (1 : ℝ) ≤ Real.sqrt 2 := by
    rw [Real.le_sqrt (by norm_num) (by norm_num)]
    norm_num
  have hvalid : validDraw (erf 10) 0 0.02 (-2) 2 := by
    constructor
    · have h1 : ((-2 : ℝ) - 0) / 0.02 = -100 := by norm_num
      rw [two_mul_norm_cdf_sub_one, h1]
      apply erf_strictMono.monotone
      unfold SQRT_2
      rw [div_le_iff₀ hs2pos]
      nlinarith
    · have h1 : ((2 : ℝ) - 0) / 0.02 = 100 := by norm_num
      rw [two_mul_norm_cdf_sub_one, h1]
      apply erf_strictMono
      unfold SQRT_2
      rw [lt_div_iff₀ hs2pos]
      nlinarith
  have hbound := hcl (erf 10) hvalid
  have hval : initLinearWeightValue (erf 10) =
      min (max ((10 : ℝ) * (0.02 * Real.sqrt 2) + 0) (-2)) 2 := by
    unfold initLinearWeightValue _truncated_normal truncatedNormalValue
    rw [erfinv_erf]
  have h0 : (0 : ℝ) ≤ 10 * (0.02 * Real.sqrt 2) + 0 := by positivity
  have hle2 : (10 : ℝ) * (0.02 * Real.sqrt 2) + 0 ≤ 2 := by nlinarith
  rw [hval, max_eq_left (by linarith), min_eq_left hle2, sub_zero,
    abs_of_nonneg h0] at hbound
  nlinarith

/-- C9 (amended): the default initializer used for all linear-layer weights
(`_truncated_normal(weight, std=0.02)` in `_init_dino_head` and
`VisionTransformer._init_weights`) draws from a normal of standard deviation
0.02 clamped into the absolute interval `[a, b] = [-2, 2]` — not into two
standard deviations of the mean — so every initialized weight lies in
`[-2, 2]`, and every bias is initialized to zero. -/
theorem init_weight_within_clamp_bounds_and_bias_zero (u : ℝ) :
    initLinearWeightValue u ∈ Set.Icc (-2 : ℝ) 2 ∧ initLinearBiasValue = 0 := by
  refine ⟨?_, rfl⟩
  unfold initLinearWeightValue _truncated_normal truncatedNormalValue
  rw [Set.mem_Icc]
  exact ⟨le_min (le_max_right _ _) (by norm_num), min_le_right _ _⟩

/-- C10: `_truncated_normal` sets its warning flag exactly when every point of
the truncation interval `[a, b]` is more than two standard deviations away
from the requested mean (for `a ≤ b` and `0 ≤ std`, the source condition
`mean < a - 2*std or mean > b + 2*std` is equivalent to that distance
statement), and the warning is non-fatal: the function still returns the
filled tensor value unconditionally. -/
theorem truncated_normal_warning_iff (u mean std a b : ℝ)
    (hab : a ≤ b) (hstd : 0 ≤ std) :
    ((_truncated_normal u mean std a b).1 ↔
      ∀ x ∈ Set.Icc a b, 2 * std < |x - mean|) ∧
    (_truncated_normal u mean std a b).2 = truncatedNormalValue u mean std a b := by
  refine ⟨⟨?_, ?_⟩, rfl⟩
  · rintro (h | h) x ⟨hax, hxb⟩
    · have hx : 2 * std < x - mean := by linarith
      exact lt_of_lt_of_le hx (le_abs_self _)
    · have hx : 2 * std < -(x - mean) := by linarith
      exact lt_of_lt_of_le hx (neg_le_abs _)
  · intro h
    show mean < a - 2 * std ∨ mean > b + 2 * std
    by_contra hno
    push_neg at hno
    obtain ⟨h1, h2⟩ := hno
    have hx0mem : min (max mean a) b ∈ Set.Icc a b :=
      ⟨le_min (le_max_right _ _) hab, min_le_right _ _⟩
    have habs : |min (max mean a) b - mean| ≤ 2 * std := by
      rcases le_total mean a with hma | ham
      · have hx0 : min (max mean a) b = a := by
          rw [max_eq_right hma, min_eq_left hab]
        rw [hx0, abs_le]
        constructor <;> linarith
      · rcases le_total mean b with hmb | hbm
        · have hx0 : min (max mean a) b = mean := by
            rw [max_eq_left ham, min_eq_left hmb]
          rw [hx0, sub_self, abs_zero]
          linarith
        · have hx0 : min (max mean a) b = b := by
            rw [max_eq_left ham, min_eq_right hbm]
          rw [hx0, abs_le]
          constructor <;> linarith
    exact absurd (h _ hx0mem) (not_lt.mpr habs)

theorem truncated_normal_warning_iff_witness :
    ((-2 : ℝ) ≤ 2) ∧ ((0 : ℝ) ≤ 1) ∧
      (((_truncated_normal 0 10 1 (-2) 2).1 ↔
        ∀ x ∈ Set.Icc (-2 : ℝ) 2, 2 * 1 < |x - 10|) ∧
      (_truncated_normal 0 10 1 (-2) 2).2 = truncatedNormalValue 0 10 1 (-2) 2) :=
  ⟨by norm_num, by norm_num,
    truncated_normal_warning_iff 0 10 1 (-2) 2 (by norm_num) (by norm_num)⟩

end DinoModules
